import Mathlib

/-!
Verification of the Celora wallet core against its specification.

The development shallowly embeds the Python sources:
- `src/migration_source/celora_wallet.py` (namespace `CeloraWallet`),
- `src/migration_source/dist/backend/src/services/walletService.py`
  (namespace `WalletService`),
- `src/migration_source/kms_key_manager.py` (namespace `KMS`).

Modelling conventions:
- Python strings that are inspected character by character are embedded as
  `List Char`; identifiers only compared for equality stay `String`.
- Wall-clock timestamps (Python `time.time()` floats) are embedded as `Int`:
  the code only adds and compares them (no fractional arithmetic occurs).
- PBKDF2 hashing and constant-time comparison are embedded symbolically:
  verifying a PIN against the stored salted hash is modelled as equality with
  the PIN the hash was derived from (collision-freedom of PBKDF2-HMAC-SHA256).
- Fernet authenticated encryption is embedded symbolically: a ciphertext is a
  pair of the encrypting key and the payload; decryption succeeds exactly when
  the supplied key equals the encrypting key (authenticity of Fernet), and
  raises `InvalidToken` (here: `none`) otherwise.
- Randomness (`secrets.token_hex`, `Fernet.generate_key`, `os.urandom`) is
  passed in as an explicit parameter of the operation that draws it.
-/

namespace Py

/-- Python `str.isdigit()` restricted to ASCII: true exactly on `'0'`..`'9'`.
(Unicode digit characters outside ASCII are not modelled.) -/
def isdigit (c : Char) : Bool := '0' ≤ c ∧ c ≤ '9'

/-- Numeric value of an ASCII digit character. -/
def digitVal (c : Char) : Nat := c.toNat - 48

/-- Value of a nonempty all-digit character list, most significant first. -/
def digitsVal (s : List Char) : Nat :=
  s.foldl (fun a c => a * 10 + digitVal c) 0

/-- ASCII whitespace, as stripped by Python `int(str)`. -/
def isSpace (c : Char) : Bool :=
  c = ' ' ∨ c = '\t' ∨ c = '\n' ∨ c = '\r' ∨ c = '\x0b' ∨ c = '\x0c'

/-- Strip leading and trailing whitespace. -/
def strip (s : List Char) : List Char :=
  ((s.dropWhile isSpace).reverse.dropWhile isSpace).reverse

/-- Python `int(str)`: strip whitespace, optional sign, then a nonempty run of
digits; any other shape raises `ValueError` (here: `none`).
(Underscore digit-group separators are not modelled.) -/
def pyInt (s : List Char) : Option Int :=
  match strip s with
  | [] => none
  | c :: rest =>
      if c = '+' then
        if rest ≠ [] ∧ rest.all isdigit then some (digitsVal rest) else none
      else if c = '-' then
        if rest ≠ [] ∧ rest.all isdigit then some (-(digitsVal rest : Int)) else none
      else if (c :: rest).all isdigit then some (digitsVal (c :: rest)) else none

/-- Python `str.split(sep)` for a one-character separator: `"".split` is
`[""]`, adjacent separators yield empty fields. -/
def split (sep : Char) : List Char → List (List Char)
  | [] => [[]]
  | c :: rest =>
      if c = sep then [] :: split sep rest
      else
        match split sep rest with
        | [] => [[c]]
        | h :: t => (c :: h) :: t

end Py

/-! ## Luhn checksums -/

/-- The doubling step of the Luhn algorithm: double the digit and subtract 9
when the result exceeds 9 (both Python variants write it this way). -/
def luhnDouble (d : Nat) : Nat :=
  if 2 * d > 9 then 2 * d - 9 else 2 * d

/-- The `for i, d in enumerate(digits)` loop shared by both Python Luhn
variants: starting at index `i`, add `luhnDouble d` when `i % 2 == parity`
and `d` otherwise. -/
def luhnLoop (parity : Nat) : Nat → List Nat → Nat
  | _, [] => 0
  | i, d :: rest =>
      (if i % 2 = parity then luhnDouble d else d) + luhnLoop parity (i + 1) rest

/-- The standard Luhn mod-10 checksum from the spec: double every second digit
from the right (the rightmost digit is position 0 and is never doubled; a digit
whose 0-based position from the right is odd is doubled, subtracting 9 above
9). Stated structurally: the head of the list is at position `tail.length`
from the right. -/
def luhnSpecChecksum : List Nat → Nat
  | [] => 0
  | d :: rest =>
      (if rest.length % 2 = 1 then luhnDouble d else d) + luhnSpecChecksum rest

namespace CeloraWallet

/-- `celora_wallet._luhn_valid`: extract digits, reject the empty digit list,
then run the parity loop with `parity = len(digits) % 2` and test mod 10. -/
def luhn_valid (card_number : List Char) : Bool :=
  let digits := (card_number.filter Py.isdigit).map Py.digitVal
  if digits.isEmpty then false
  else luhnLoop (digits.length % 2) 0 digits % 10 == 0

/-- `celora_wallet._mask_card_number`: keep only the digits; if at most 4
remain return them unmasked, otherwise replace all but the last 4 with `'*'`. -/
def mask_card_number (number : List Char) : List Char :=
  let n := number.filter Py.isdigit
  if n.length ≤ 4 then n
  else List.replicate (n.length - 4) '*' ++ n.drop (n.length - 4)

/-- `celora_wallet._validate_expiry`, parameterized by the current local year
and month (`time.localtime()`): split on `'/'` into exactly two `int()`-parseable
fields, require month 1..12, map a year value below 100 to `2000 + year`, and
reject a (year, month) strictly before (thisYear, thisMonth). Any parse
failure returns false. -/
def validate_expiry (thisYear thisMonth : Int) (expiry : List Char) : Bool :=
  match Py.split '/' expiry with
  | [p1, p2] =>
      match Py.pyInt p1, Py.pyInt p2 with
      | some mm, some yy0 =>
          if ¬(1 ≤ mm ∧ mm ≤ 12) then false
          else
            let yy := if yy0 < 100 then yy0 + 2000 else yy0
            if yy < thisYear then false
            else if yy = thisYear ∧ mm < thisMonth then false
            else true
      | _, _ => false
  | _ => false

end CeloraWallet

namespace WalletService

/-- `CeloraWalletService._luhn_validate`: same parity loop as the celora
variant but with no empty-digit-list guard, so an empty digit list has
checksum 0 and passes. -/
def luhn_validate (card_number : List Char) : Bool :=
  let digits := (card_number.filter Py.isdigit).map Py.digitVal
  luhnLoop (digits.length % 2) 0 digits % 10 == 0

/-- `CeloraWalletService._validate_expiry`: a pure format check. Split on
`'/'` into exactly two fields; the month must be all digits with value 1..12,
the year must be all digits of length 2 or 4. No comparison against the
current date is performed. -/
def validate_expiry (expiry : List Char) : Bool :=
  if ¬ expiry.contains '/' then false
  else
    match Py.split '/' expiry with
    | [month, year] =>
        if ¬(month ≠ [] ∧ month.all Py.isdigit ∧
              1 ≤ (Py.digitsVal month : Int) ∧ (Py.digitsVal month : Int) ≤ 12) then false
        else if ¬(year ≠ [] ∧ year.all Py.isdigit ∧
              (year.length = 2 ∨ year.length = 4)) then false
        else true
    | _ => false

/-- `EncryptedCard._mask_card_number`: keep only digits; fewer than 4 digits
are fully starred, otherwise all but the last 4 are starred. -/
def mask_card_number (number : List Char) : List Char :=
  let clean := number.filter Py.isdigit
  if clean.length < 4 then List.replicate clean.length '*'
  else List.replicate (clean.length - 4) '*' ++ clean.drop (clean.length - 4)

end WalletService

namespace CeloraWallet

/-- The JSON payload `add_card` serializes and encrypts:
`json.dumps(dict with card_number and expiry)`. Both fields are strings, so
the JSON round trip is the identity on the pair. -/
structure CardPayload where
  card_number : List Char
  expiry : List Char
deriving DecidableEq, Repr

/-- A Fernet ciphertext of a card payload, symbolically: the encrypting key
together with the payload. `Fernet.decrypt` with a different key raises
`InvalidToken`. -/
structure Ciphertext where
  key : Nat
  payload : CardPayload
deriving DecidableEq, Repr

/-- `Fernet(key).encrypt(payload)`, symbolic. -/
def fernetEncrypt (key : Nat) (p : CardPayload) : Ciphertext := ⟨key, p⟩

/-- `Fernet(key).decrypt(ct)`, symbolic: the payload when the key matches,
`InvalidToken` (`none`) otherwise. -/
def fernetDecrypt (key : Nat) (ct : Ciphertext) : Option CardPayload :=
  if ct.key = key then some ct.payload else none

/-- `celora_wallet.VirtualCard`: a random id plus the encrypted payload. -/
structure VirtualCard where
  id : String
  encrypted : Ciphertext
deriving DecidableEq, Repr

/-- The `Wallet` state of `celora_wallet.py`. `pincode` stands for the stored
salted PBKDF2 hash (symbolic hashing, see the file header); `fernetKey` for
the wallet's Fernet instance. -/
structure Wallet where
  owner : String
  pincode : String
  failed_attempts : Nat
  lockout_until : Int
  max_attempts : Nat
  lockout_seconds : Int
  fernetKey : Nat
  cards : List VirtualCard
deriving DecidableEq, Repr

/-- Errors raised by the wallet operations of `celora_wallet.py`:
`WalletLockedError`, `ValueError` with the quoted reason, `KeyError`. -/
inductive WErr
  | locked
  | invalidPincode
  | luhnFailed
  | badCvv
  | badExpiry
  | cardNotFound
  | decryptFailed
deriving DecidableEq, Repr

/-- `Wallet._verify_pincode` at wall-clock time `now`: raise `locked` while
`now < lockout_until`; on a match reset `failed_attempts` and return true; on
a mismatch increment `failed_attempts` and, when it reaches `max_attempts`,
set `lockout_until = now + lockout_seconds`, in every mismatch case returning
false. -/
def verify_pincode (w : Wallet) (now : Int) (pincode : String) :
    Except WErr Bool × Wallet :=
  if now < w.lockout_until then (.error .locked, w)
  else if pincode = w.pincode then
    (.ok true, { w with failed_attempts := 0 })
  else
    let fa := w.failed_attempts + 1
    if fa ≥ w.max_attempts then
      (.ok false, { w with failed_attempts := fa,
                           lockout_until := now + w.lockout_seconds })
    else (.ok false, { w with failed_attempts := fa })

/-- Python `cvv.isdigit() and 3 <= len(cvv) <= 4`. -/
def cvvOk (cvv : List Char) : Bool :=
  cvv ≠ [] ∧ cvv.all Py.isdigit ∧ 3 ≤ cvv.length ∧ cvv.length ≤ 4

/-- `Wallet.add_card(card_number, expiry, cvv=None, pincode=None)` at time
`now` with current local date `(thisYear, thisMonth)`; `freshId` is the
`secrets.token_hex(8)` draw. The PIN is verified only when one is supplied;
then Luhn, CVV and expiry validation; on success the encrypted card is
appended and its id returned. -/
def add_card (w : Wallet) (now : Int) (thisYear thisMonth : Int) (freshId : String)
    (card_number expiry : List Char) (cvv : Option (List Char))
    (pincode : Option String) : Except WErr String × Wallet :=
  let step : Except WErr Unit × Wallet :=
    match pincode with
    | none => (.ok (), w)
    | some p =>
        match verify_pincode w now p with
        | (.error e, w') => (.error e, w')
        | (.ok false, w') => (.error .invalidPincode, w')
        | (.ok true, w') => (.ok (), w')
  match step with
  | (.error e, w') => (.error e, w')
  | (.ok _, w') =>
      if ¬ luhn_valid card_number then (.error .luhnFailed, w')
      else if cvv.any (fun c => ¬ cvvOk c) then (.error .badCvv, w')
      else if ¬ validate_expiry thisYear thisMonth expiry then (.error .badExpiry, w')
      else
        let card : VirtualCard :=
          ⟨freshId, fernetEncrypt w'.fernetKey ⟨card_number, expiry⟩⟩
        (.ok freshId, { w' with cards := w'.cards ++ [card] })

/-- The dict `VirtualCard.masked` returns. -/
structure MaskedCard where
  id : String
  card_number_masked : List Char
  expiry : List Char
  cvv_masked : List Char
deriving DecidableEq, Repr

/-- `VirtualCard.masked(fernet)`: decrypt (raising on `InvalidToken`), mask
the card number, and fix `cvv_masked` to `"***"`. -/
def masked (fernet : Nat) (c : VirtualCard) : Except WErr MaskedCard :=
  match fernetDecrypt fernet c.encrypted with
  | none => .error .decryptFailed
  | some p =>
      .ok ⟨c.id, mask_card_number p.card_number, p.expiry, ['*', '*', '*']⟩

/-- `Wallet.list_cards`: the masked view of every stored card, propagating a
decryption failure. -/
def list_cards (w : Wallet) : Except WErr (List MaskedCard) :=
  go w.fernetKey w.cards
where
  go (k : Nat) : List VirtualCard → Except WErr (List MaskedCard)
    | [] => .ok []
    | c :: rest =>
        match masked k c with
        | .error e => .error e
        | .ok v =>
            match go k rest with
            | .error e => .error e
            | .ok vs => .ok (v :: vs)

/-- `Wallet.get_card(card_id, pincode)` at time `now`: verify the PIN (raising
`locked`, or `ValueError` when it mismatches), then return the decrypted
payload of the first card with the given id, or `KeyError`. -/
def get_card (w : Wallet) (now : Int) (card_id : String) (pincode : String) :
    Except WErr CardPayload × Wallet :=
  match verify_pincode w now pincode with
  | (.error e, w') => (.error e, w')
  | (.ok false, w') => (.error .invalidPincode, w')
  | (.ok true, w') =>
      match w'.cards.find? (fun c => c.id == card_id) with
      | none => (.error .cardNotFound, w')
      | some c =>
          match fernetDecrypt w'.fernetKey c.encrypted with
          | none => (.error .decryptFailed, w')
          | some p => (.ok p, w')

end CeloraWallet

namespace WalletService

/-- The JSON payload `CeloraWalletService.add_card` encrypts:
card number, expiry, CVV and cardholder name. -/
structure ServicePayload where
  card_number : List Char
  expiry : List Char
  cvv : List Char
  cardholder_name : List Char
deriving DecidableEq, Repr

/-- Symbolic Fernet ciphertext of a service payload. -/
structure SCiphertext where
  key : Nat
  payload : ServicePayload
deriving DecidableEq, Repr

/-- `self.fernet.encrypt`, symbolic. -/
def sEncrypt (key : Nat) (p : ServicePayload) : SCiphertext := ⟨key, p⟩

/-- `self.fernet.decrypt`, symbolic. -/
def sDecrypt (key : Nat) (ct : SCiphertext) : Option ServicePayload :=
  if ct.key = key then some ct.payload else none

/-- `walletService.EncryptedCard`. -/
structure EncryptedCard where
  id : String
  owner_id : String
  encrypted_data : SCiphertext
  created_at : Int
  status : String
deriving DecidableEq, Repr

/-- The per-user wallet dict created by `create_wallet`; `pin` stands for the
stored `pin_hash` (symbolic hashing). `cards` is the list of card ids. -/
structure UserWallet where
  user_id : String
  owner : String
  pin : String
  created_at : Int
  failed_attempts : Nat
  locked_until : Int
  max_attempts : Nat
  lockout_seconds : Int
  cards : List String
deriving DecidableEq, Repr

/-- `CeloraWalletService` state: the Fernet key and the two in-memory dicts
`self.wallets` and `self.cards` (association lists, most recent binding
first). -/
structure Service where
  fernetKey : Nat
  wallets : List (String × UserWallet)
  cards : List (String × EncryptedCard)
deriving DecidableEq, Repr

/-- Error taxonomy of the service operations (each `raise` site; the outer
`try/except` serializes these into a `success: False` response). -/
inductive SErr
  | walletNotFound
  | locked
  | invalidPin
  | missingField
  | luhnFailed
  | badCvv
  | badExpiry
  | cardNotFound
  | accessDenied
  | decryptFailed
deriving DecidableEq, Repr

/-- Dict lookup on an association list. -/
def lookup {α : Type} (m : List (String × α)) (k : String) : Option α :=
  (m.find? (fun e => e.1 == k)).map (·.2)

/-- Dict update of an existing key on an association list. -/
def updateAt {α : Type} (m : List (String × α)) (k : String) (v : α) :
    List (String × α) :=
  m.map (fun e => if e.1 == k then (k, v) else e)

/-- `CeloraWalletService.verify_pin` at time `now`: `ValueError` when the
wallet is missing; `WalletLockedError` while `now < locked_until`; on a match
reset `failed_attempts` and return true; on a mismatch increment
`failed_attempts` and, when it reaches `max_attempts`, set
`locked_until = now + lockout_seconds` and raise `WalletLockedError` on this
same call; otherwise return false. -/
def verify_pin (s : Service) (now : Int) (user_id pin : String) :
    Except SErr Bool × Service :=
  match lookup s.wallets user_id with
  | none => (.error .walletNotFound, s)
  | some w =>
      if now < w.locked_until then (.error .locked, s)
      else if pin = w.pin then
        (.ok true,
         { s with wallets := updateAt s.wallets user_id { w with failed_attempts := 0 } })
      else
        let fa := w.failed_attempts + 1
        if fa ≥ w.max_attempts then
          let w' := { w with failed_attempts := fa,
                             locked_until := now + w.lockout_seconds }
          (.error .locked, { s with wallets := updateAt s.wallets user_id w' })
        else
          (.ok false,
           { s with wallets := updateAt s.wallets user_id { w with failed_attempts := fa } })

/-- The `card_data` dict passed to `add_card`; absent keys are `none`. -/
structure CardData where
  card_number : Option (List Char)
  expiry : Option (List Char)
  cvv : Option (List Char)
  cardholder_name : Option (List Char)
deriving DecidableEq, Repr

/-- Python `cvv.isdigit() and 3 <= len(cvv) <= 4` (same check as the celora
variant). -/
def cvvOk (cvv : List Char) : Bool :=
  cvv ≠ [] ∧ cvv.all Py.isdigit ∧ 3 ≤ cvv.length ∧ cvv.length ≤ 4

/-- `CeloraWalletService._validate_card_data`: require the `card_number`,
`expiry` and `cvv` fields, then Luhn, CVV and expiry-format checks, raising
`CardValidationError` with the corresponding reason. -/
def validate_card_data (cd : CardData) : Except SErr Unit :=
  match cd.card_number, cd.expiry, cd.cvv with
  | some cn, some exp, some cvv =>
      if ¬ luhn_validate cn then .error .luhnFailed
      else if ¬ cvvOk cvv then .error .badCvv
      else if ¬ validate_expiry exp then .error .badExpiry
      else .ok ()
  | _, _, _ => .error .missingField

/-- `CeloraWalletService.add_card` at time `now`; `freshId` is the
`card_{secrets.token_hex(8)}` draw. Verifies the PIN first (a `false` return
raises `ValueError("Invalid PIN")`), validates the card data, then stores the
encrypted card under the fresh id and appends the id to the wallet's card
list. -/
def add_card (s : Service) (now : Int) (user_id : String) (cd : CardData)
    (pin : String) (freshId : String) : Except SErr String × Service :=
  match verify_pin s now user_id pin with
  | (.error e, s') => (.error e, s')
  | (.ok false, s') => (.error .invalidPin, s')
  | (.ok true, s') =>
      match validate_card_data cd with
      | .error e => (.error e, s')
      | .ok _ =>
          match cd.card_number, cd.expiry, cd.cvv with
          | some cn, some exp, some cvv =>
              let payload : ServicePayload :=
                ⟨cn, exp, cvv, cd.cardholder_name.getD []⟩
              let card : EncryptedCard :=
                ⟨freshId, user_id, sEncrypt s'.fernetKey payload, now, "active"⟩
              match lookup s'.wallets user_id with
              | none => (.error .walletNotFound, { s' with cards := (freshId, card) :: s'.cards })
              | some w =>
                  (.ok freshId,
                   { s' with
                     cards := (freshId, card) :: s'.cards,
                     wallets := updateAt s'.wallets user_id
                       { w with cards := w.cards ++ [freshId] } })
          | _, _, _ => (.error .missingField, s')

/-- `CeloraWalletService.get_card_details` at time `now`: verify the PIN, look
the card up in the global card dict, check ownership before decrypting, and
only then return the decrypted payload. -/
def get_card_details (s : Service) (now : Int) (user_id card_id pin : String) :
    Except SErr ServicePayload × Service :=
  match verify_pin s now user_id pin with
  | (.error e, s') => (.error e, s')
  | (.ok false, s') => (.error .invalidPin, s')
  | (.ok true, s') =>
      match lookup s'.cards card_id with
      | none => (.error .cardNotFound, s')
      | some card =>
          if card.owner_id ≠ user_id then (.error .accessDenied, s')
          else
            match sDecrypt s'.fernetKey card.encrypted_data with
            | none => (.error .decryptFailed, s')
            | some p => (.ok p, s')

/-- `CeloraWalletService.delete_card` at time `now`: verify the PIN, look the
card up, check ownership, then delete it from the global dict and filter its
id out of the owner's wallet card list. -/
def delete_card (s : Service) (now : Int) (user_id card_id pin : String) :
    Except SErr Unit × Service :=
  match verify_pin s now user_id pin with
  | (.error e, s') => (.error e, s')
  | (.ok false, s') => (.error .invalidPin, s')
  | (.ok true, s') =>
      match lookup s'.cards card_id with
      | none => (.error .cardNotFound, s')
      | some card =>
          if card.owner_id ≠ user_id then (.error .accessDenied, s')
          else
            let s2 := { s' with cards := s'.cards.filter (fun e => e.1 ≠ card_id) }
            match lookup s2.wallets user_id with
            | none => (.ok (), s2)
            | some w =>
                let w' := { w with cards := w.cards.filter (fun cid => cid ≠ card_id) }
                (.ok (), { s2 with wallets := updateAt s2.wallets user_id w' })

end WalletService

namespace KMS

/-- An encryption context: the `Optional[Dict[str, str]]` passed to the key
operations, as an association list. -/
abbrev Ctx := List (String × String)

/-- Boolean key order used to canonicalize a context. -/
def pairLe (a b : String × String) : Bool := a.1 < b.1 || a.1 == b.1

/-- Sorted insertion of one entry, by key. -/
def insertSorted (x : String × String) : Ctx → Ctx
  | [] => [x]
  | y :: rest => if pairLe x y then x :: y :: rest else y :: insertSorted x rest

/-- Insertion sort of a context by key. -/
def sortCtx : Ctx → Ctx
  | [] => []
  | x :: rest => insertSorted x (sortCtx rest)

/-- The canonical form of a context, standing for
`json.dumps(context or {}, sort_keys=True)`: the absent context becomes the
empty dict, and entries are sorted by key so that equal dicts canonicalize
equally. -/
def canonCtx (ctx : Option Ctx) : Ctx :=
  sortCtx (ctx.getD [])

/-- `KeyMetadata` from `kms_key_manager.py`. -/
structure KeyMetadata where
  kid : String
  version : Nat
  algorithm : String
  created_at : Int
  rotated_at : Option Int
deriving DecidableEq, Repr

/-- A ciphertext under the local master key, symbolically. The source derives
a Fernet key by PBKDF2 from the master key salted with the canonical context
string, so decryption recovers the payload exactly when both the master key
and the canonical context match (PBKDF2 collision-freedom assumed). -/
structure MCiphertext where
  masterKey : Nat
  ctx : Ctx
  payload : Nat
deriving DecidableEq, Repr

/-- `_encrypt_with_master_key(data, master_key, context)`, symbolic. -/
def encrypt_with_master_key (data : Nat) (masterKey : Nat) (ctx : Option Ctx) :
    MCiphertext :=
  ⟨masterKey, canonCtx ctx, data⟩

/-- `_decrypt_with_master_key(encrypted_data, master_key, context)`, symbolic:
Fernet raises `InvalidToken` (here `none`) when the derived key differs, i.e.
when the master key or the canonical context differs. -/
def decrypt_with_master_key (c : MCiphertext) (masterKey : Nat) (ctx : Option Ctx) :
    Option Nat :=
  if c.masterKey = masterKey ∧ c.ctx = canonCtx ctx then some c.payload else none

/-- One record of the file-based key store (`keys/{kid}.json`): the encrypted
data key together with the stored metadata (which includes the context). -/
structure StoredKey where
  encrypted_key : MCiphertext
  metadata : KeyMetadata
  context : Ctx
deriving DecidableEq, Repr

/-- `KMSKeyManager` in file-fallback mode: the local master key, the key-store
directory as an association list from `kid` to record (most recent write
first), and the in-memory plaintext cache `self._key_cache`. -/
structure Manager where
  masterKey : Nat
  store : List (String × StoredKey)
  key_cache : List (String × Nat)
deriving DecidableEq, Repr

/-- Failure modes of the key operations. -/
inductive KErr
  | keyNotFound
  | decryptionError
deriving DecidableEq, Repr

/-- Dict lookup on an association list. -/
def lookup {α : Type} (m : List (String × α)) (k : String) : Option α :=
  (m.find? (fun e => e.1 == k)).map (·.2)

/-- `KMSKeyManager.generate_data_key(context)` (file-fallback path) at time
`now`; `freshKid` is the `wallet-key-...` draw and `freshKey` the
`Fernet.generate_key()` draw. The plaintext key is returned once and stored
only encrypted under the master key bound to the context. -/
def generate_data_key (m : Manager) (now : Int) (freshKid : String)
    (freshKey : Nat) (ctx : Option Ctx) :
    (Nat × String × KeyMetadata) × Manager :=
  let md : KeyMetadata := ⟨freshKid, 1, "AES-256-GCM", now, none⟩
  let rec_ : StoredKey :=
    ⟨encrypt_with_master_key freshKey m.masterKey ctx, md, canonCtx ctx⟩
  ((freshKey, freshKid, md), { m with store := (freshKid, rec_) :: m.store })

/-- `KMSKeyManager.decrypt_data_key(kid, context)`: return the cached
plaintext when the kid is in `self._key_cache` (the cache probe does not look
at the context), else look the record up in the store (`ValueError` when
missing), decrypt it under the master key with the supplied context, and
cache the plaintext. -/
def decrypt_data_key (m : Manager) (kid : String) (ctx : Option Ctx) :
    Except KErr Nat × Manager :=
  match lookup m.key_cache kid with
  | some k => (.ok k, m)
  | none =>
      match lookup m.store kid with
      | none => (.error .keyNotFound, m)
      | some sk =>
          match decrypt_with_master_key sk.encrypted_key m.masterKey ctx with
          | none => (.error .decryptionError, m)
          | some k => (.ok k, { m with key_cache := (kid, k) :: m.key_cache })

/-- `KMSKeyManager._mark_file_key_rotated(kid)` at time `now`: when the kid's
record exists, set `rotated_at` in its stored metadata; otherwise do
nothing. -/
def mark_file_key_rotated (m : Manager) (now : Int) (kid : String) : Manager :=
  { m with store := m.store.map (fun e =>
      if e.1 == kid then
        (e.1, { e.2 with metadata := { e.2.metadata with rotated_at := some now } })
      else e) }

/-- `KMSKeyManager.rotate_key(old_kid)` at time `now`: generate a new data key
(with no context, as in the source) and mark the old record rotated. -/
def rotate_key (m : Manager) (now : Int) (freshKid : String) (freshKey : Nat)
    (old_kid : String) : (Nat × String × KeyMetadata) × Manager :=
  let (res, m1) := generate_data_key m now freshKid freshKey none
  (res, mark_file_key_rotated m1 now old_kid)

end KMS

/-! ## Helper lemmas -/

/-- The left-to-right parity loop of the Python sources computes the standard
right-anchored Luhn checksum: position `i` from the left of a length-`L` list
satisfies `i % 2 = L % 2` exactly when its 0-based position from the right is
odd. -/
theorem luhnLoop_eq_specChecksum (ds : List Nat) :
    ∀ i p, p < 2 → (i + ds.length) % 2 = p → luhnLoop p i ds = luhnSpecChecksum ds := by
  induction ds with
  | nil => intro i p _ _; rfl
  | cons d rest ih =>
      intro i p hp h
      have hlen : (i + (rest.length + 1)) % 2 = p := by simpa using h
      have hrec : ((i + 1) + rest.length) % 2 = p := by omega
      have hiff : (i % 2 = p) ↔ (rest.length % 2 = 1) := by omega
      simp only [luhnLoop, luhnSpecChecksum]
      rw [ih (i + 1) p hp hrec]
      congr 1
      by_cases hc : i % 2 = p
      · rw [if_pos hc, if_pos (hiff.mp hc)]
      · rw [if_neg hc, if_neg (fun hh => hc (hiff.mpr hh))]

/-- A list all of whose members pass the digit test is unchanged by the digit
filter. -/
theorem filter_isdigit_self (s : List Char) (h : ∀ c ∈ s, Py.isdigit c = true) :
    s.filter Py.isdigit = s :=
  List.filter_eq_self.mpr h

/-- An ASCII digit character is one of `'0'`..`'9'`. -/
theorem digit_cases (c : Char) (h : Py.isdigit c = true) :
    c = '0' ∨ c = '1' ∨ c = '2' ∨ c = '3' ∨ c = '4' ∨
    c = '5' ∨ c = '6' ∨ c = '7' ∨ c = '8' ∨ c = '9' := by
  have h' := of_decide_eq_true h
  obtain ⟨h1, h2⟩ := h'
  have v1 : (48 : Nat) ≤ c.toNat := h1
  have v2 : c.toNat ≤ 57 := h2
  have hc : ∀ n : Nat, c.toNat = n → c = Char.ofNat n := by
    intro n hn
    subst hn
    exact (Char.ofNat_toNat c).symm
  interval_cases hn : c.toNat <;> simp_all [hc _ rfl]

/-- A digit character has value at most 9. -/
theorem digitVal_le_nine (c : Char) (h : Py.isdigit c = true) : Py.digitVal c ≤ 9 := by
  rcases digit_cases c h with rfl|rfl|rfl|rfl|rfl|rfl|rfl|rfl|rfl|rfl <;> decide

/-- A digit character is not the separator `'/'`. -/
theorem digit_ne_slash (c : Char) (h : Py.isdigit c = true) : ¬ c = '/' := by
  rcases digit_cases c h with rfl|rfl|rfl|rfl|rfl|rfl|rfl|rfl|rfl|rfl <;> decide

/-- A digit character is not a sign character. -/
theorem digit_ne_sign (c : Char) (h : Py.isdigit c = true) : ¬ c = '+' ∧ ¬ c = '-' := by
  rcases digit_cases c h with rfl|rfl|rfl|rfl|rfl|rfl|rfl|rfl|rfl|rfl <;> decide

/-- A digit character is not whitespace. -/
theorem digit_not_space (c : Char) (h : Py.isdigit c = true) : Py.isSpace c = false := by
  rcases digit_cases c h with rfl|rfl|rfl|rfl|rfl|rfl|rfl|rfl|rfl|rfl <;> decide

/-! ## C5: Luhn validation matches the standard algorithm -/

/-- C5: for every 16-digit card-number string, `_luhn_valid` returns true iff
the standard mod-10 checksum (doubling every second digit from the right,
subtracting 9 from doubled digits above 9) is 0; `4532015112830366` is
accepted and `4532015112830367` is rejected. -/
theorem C5_luhn_matches_standard :
    (∀ s : List Char, s.length = 16 → (∀ c ∈ s, Py.isdigit c = true) →
        CeloraWallet.luhn_valid s =
          (luhnSpecChecksum (s.map Py.digitVal) % 10 == 0))
    ∧ CeloraWallet.luhn_valid (String.toList "4532015112830366") = true
    ∧ CeloraWallet.luhn_valid (String.toList "4532015112830367") = false := by
  refine ⟨?_, by decide, by decide⟩
  intro s hlen hdig
  unfold CeloraWallet.luhn_valid
  rw [filter_isdigit_self s hdig]
  have hmaplen : (s.map Py.digitVal).length = 16 := by simp [hlen]
  have hne : (s.map Py.digitVal).isEmpty = false := by
    cases hm : s.map Py.digitVal with
    | nil => rw [hm] at hmaplen; simp at hmaplen
    | cons a t => simp
  simp only [hne, Bool.false_eq_true, if_false, hmaplen]
  rw [luhnLoop_eq_specChecksum (s.map Py.digitVal) 0 (16 % 2) (by decide)
        (by rw [hmaplen])]

/-- Witness for C5: the universally quantified part applied to the concrete
16-digit string `4111111111111111`. -/
theorem C5_witness :
    CeloraWallet.luhn_valid (String.toList "4111111111111111") =
      (luhnSpecChecksum ((String.toList "4111111111111111").map Py.digitVal) % 10 == 0) :=
  C5_luhn_matches_standard.1 (String.toList "4111111111111111") (by decide) (by decide)

/-! ## C10: the service Luhn variant accepts digit-free strings -/

/-- C10: every string containing no ASCII digit (the empty string included)
passes `CeloraWalletService._luhn_validate`, because the empty digit list has
checksum 0; consequently a digit-free card number passes the Luhn step of
`_validate_card_data` (the concrete card data with number `"abc"` passes the
whole validation). -/
theorem C10_digit_free_passes_luhn :
    (∀ s : List Char, (∀ c ∈ s, Py.isdigit c = false) →
        WalletService.luhn_validate s = true)
    ∧ WalletService.validate_card_data
        ⟨some (String.toList "abc"), some (String.toList "12/27"),
         some (String.toList "123"), none⟩ = Except.ok () := by
  refine ⟨?_, by rfl⟩
  intro s h
  unfold WalletService.luhn_validate
  have hf : s.filter Py.isdigit = [] := by
    rw [List.filter_eq_nil_iff]
    intro c hc
    simp [h c hc]
  rw [hf]
  decide

/-- Witness for C10: the universally quantified part applied to the concrete
digit-free string `"abc"`. -/
theorem C10_witness : WalletService.luhn_validate (String.toList "abc") = true :=
  C10_digit_free_passes_luhn.1 (String.toList "abc") (by decide)

/-! ## C1: add_card in `celora_wallet.py` does not require a PIN -/

/-- C1 (failing input): on a wallet whose stored PIN is `"123456"`, calling
`Wallet.add_card` with a valid card and `pincode=None` succeeds and appends
the card, with no PIN verification having taken place — the call the claim
says must fail and leave the card set unchanged. -/
theorem C1_add_card_without_pin_succeeds :
    (CeloraWallet.add_card ⟨"alice", "123456", 0, 0, 5, 300, 7, []⟩ 0 2026 10 "cid1"
        (String.toList "4532015112830366") (String.toList "12/99") none none).1
      = Except.ok "cid1"
    ∧ ((CeloraWallet.add_card ⟨"alice", "123456", 0, 0, 5, 300, 7, []⟩ 0 2026 10 "cid1"
        (String.toList "4532015112830366") (String.toList "12/99") none none).2.cards.map
          (fun c => c.id)) = ["cid1"] :=
  ⟨rfl, rfl⟩

/-! ## C2: the lockout contract of PIN verification -/

/-- C2 (counterexample): in `celora_wallet.py`, on a wallet with
`failed_attempts = 4` and `max_attempts = 5`, the mismatching call that raises
the counter to 5 arms the lockout (`lockout_until = now + lockout_seconds`)
but returns `False` — it does not fail with `WalletLockedError` as the claim
states. -/
theorem C2_counterexample :
    ((CeloraWallet.verify_pincode ⟨"alice", "123456", 4, 0, 5, 300, 7, []⟩ 1000 "999999").1
        = Except.ok false)
    ∧ ((CeloraWallet.verify_pincode ⟨"alice", "123456", 4, 0, 5, 300, 7, []⟩ 1000 "999999").1
        ≠ Except.error CeloraWallet.WErr.locked)
    ∧ ((CeloraWallet.verify_pincode ⟨"alice", "123456", 4, 0, 5, 300, 7, []⟩ 1000 "999999").2.lockout_until
        = 1300) := by
  refine ⟨rfl, ?_, by decide⟩
  intro h
  rw [show (CeloraWallet.verify_pincode ⟨"alice", "123456", 4, 0, 5, 300, 7, []⟩ 1000 "999999").1
        = Except.ok false from rfl] at h
  exact Except.noConfusion h

/-- Updating the binding of a present key makes lookup return the new value. -/
theorem lookup_updateAt_self {α : Type} (m : List (String × α)) (k : String) (v : α) :
    ∀ w, WalletService.lookup m k = some w →
      WalletService.lookup (WalletService.updateAt m k v) k = some v := by
  induction m with
  | nil => intro w h; simp [WalletService.lookup] at h
  | cons e rest ih =>
      intro w h
      by_cases he : e.1 = k
      · simp [WalletService.lookup, WalletService.updateAt, he]
      · have hbe : (e.1 == k) = false := by simpa using he
        simp only [WalletService.lookup, WalletService.updateAt, List.map_cons,
          List.find?_cons, hbe, he, if_false, Bool.false_eq_true] at h ⊢
        exact ih w h

/-- A successful `verify_pin` (wallet present, not locked, correct PIN)
returns true and stores `failed_attempts = 0` for that wallet. -/
theorem verify_pin_correct_resets (s : WalletService.Service) (now : Int) (uid : String)
    (sw : WalletService.UserWallet)
    (hsw : WalletService.lookup s.wallets uid = some sw)
    (hnl : ¬ now < sw.locked_until) :
    (WalletService.verify_pin s now uid sw.pin).1 = Except.ok true
    ∧ WalletService.lookup (WalletService.verify_pin s now uid sw.pin).2.wallets uid
        = some { sw with failed_attempts := 0 } := by
  have heq : WalletService.verify_pin s now uid sw.pin =
      (Except.ok true, { s with wallets := WalletService.updateAt s.wallets uid { sw with failed_attempts := 0 } }) := by
    simp only [WalletService.verify_pin, hsw, if_neg hnl]
    simp
  rw [heq]
  exact ⟨rfl, lookup_updateAt_self s.wallets uid { sw with failed_attempts := 0 } sw hsw⟩

/-- C2 (amended): for both variants, a verify call while `now < lockout_until`
fails with `LockedError`, and once the window has elapsed a correct PIN
returns true and resets `failed_attempts` to 0. The mismatching call that
raises `failed_attempts` to `max_attempts` sets
`lockout_until = now + lockout_seconds` in both variants, but in
`celora_wallet.py` that call itself returns `False` (only subsequent calls
inside the window fail with `LockedError`), while in `walletService.py` it
raises `WalletLockedError` as the original claim states. -/
theorem C2_lockout_contract
    (w : CeloraWallet.Wallet) (now t2 : Int) (wrong : String)
    (hnl : ¬ now < w.lockout_until) (hw : ¬ wrong = w.pincode)
    (hreach : w.failed_attempts + 1 ≥ w.max_attempts)
    (s : WalletService.Service) (sw : WalletService.UserWallet) (uid wrongs : String)
    (hsw : WalletService.lookup s.wallets uid = some sw)
    (hsnl : ¬ now < sw.locked_until) (hws : ¬ wrongs = sw.pin)
    (hsreach : sw.failed_attempts + 1 ≥ sw.max_attempts) :
    ((CeloraWallet.verify_pincode w now wrong).1 = Except.ok false
      ∧ (CeloraWallet.verify_pincode w now wrong).2.lockout_until = now + w.lockout_seconds
      ∧ (t2 < now + w.lockout_seconds →
           (CeloraWallet.verify_pincode (CeloraWallet.verify_pincode w now wrong).2 t2 w.pincode).1
             = Except.error CeloraWallet.WErr.locked)
      ∧ (¬ t2 < now + w.lockout_seconds →
           (CeloraWallet.verify_pincode (CeloraWallet.verify_pincode w now wrong).2 t2 w.pincode).1
             = Except.ok true
           ∧ (CeloraWallet.verify_pincode (CeloraWallet.verify_pincode w now wrong).2 t2 w.pincode).2.failed_attempts = 0))
    ∧ ((WalletService.verify_pin s now uid wrongs).1 = Except.error WalletService.SErr.locked
      ∧ (∃ sw1, WalletService.lookup (WalletService.verify_pin s now uid wrongs).2.wallets uid = some sw1
          ∧ sw1.locked_until = now + sw.lockout_seconds
          ∧ sw1.failed_attempts = sw.failed_attempts + 1)
      ∧ (t2 < now + sw.lockout_seconds →
           (WalletService.verify_pin (WalletService.verify_pin s now uid wrongs).2 t2 uid sw.pin).1
             = Except.error WalletService.SErr.locked)
      ∧ (¬ t2 < now + sw.lockout_seconds →
           (WalletService.verify_pin (WalletService.verify_pin s now uid wrongs).2 t2 uid sw.pin).1
             = Except.ok true
           ∧ (∃ sw2, WalletService.lookup
                (WalletService.verify_pin (WalletService.verify_pin s now uid wrongs).2 t2 uid sw.pin).2.wallets uid
                  = some sw2
              ∧ sw2.failed_attempts = 0))) := by
  constructor
  · have hr : CeloraWallet.verify_pincode w now wrong =
        (Except.ok false,
         { w with failed_attempts := w.failed_attempts + 1,
                  lockout_until := now + w.lockout_seconds }) := by
      simp only [CeloraWallet.verify_pincode, if_neg hnl, if_neg hw, if_pos hreach]
    rw [hr]
    refine ⟨rfl, rfl, ?_, ?_⟩
    · intro h2
      simp only [CeloraWallet.verify_pincode]
      rw [if_pos (by simpa using h2)]
    · intro h2
      simp only [CeloraWallet.verify_pincode]
      rw [if_neg (by simpa using h2)]
      simp
  · have hsw1 : WalletService.verify_pin s now uid wrongs =
        (Except.error WalletService.SErr.locked,
         { s with wallets := WalletService.updateAt s.wallets uid { sw with failed_attempts := sw.failed_attempts + 1, locked_until := now + sw.lockout_seconds } }) := by
      simp only [WalletService.verify_pin, hsw, if_neg hsnl, if_neg hws, if_pos hsreach]
    rw [hsw1]
    have hlk := lookup_updateAt_self s.wallets uid
      { sw with failed_attempts := sw.failed_attempts + 1, locked_until := now + sw.lockout_seconds } sw hsw
    refine ⟨rfl, ⟨_, hlk, rfl, rfl⟩, ?_, ?_⟩
    · intro h2
      simp only [WalletService.verify_pin, hlk]
      rw [if_pos (by simpa using h2)]
    · intro h2
      have hres := verify_pin_correct_resets
        { s with wallets := WalletService.updateAt s.wallets uid { sw with failed_attempts := sw.failed_attempts + 1, locked_until := now + sw.lockout_seconds } }
        t2 uid
        { sw with failed_attempts := sw.failed_attempts + 1, locked_until := now + sw.lockout_seconds }
        hlk (by simpa using h2)
      exact ⟨hres.1, ⟨_, hres.2, rfl⟩⟩

/-- Witness for C2: the amended contract applied to a concrete wallet of each
variant with `failed_attempts` one below `max_attempts`. -/
theorem C2_witness :
    (CeloraWallet.verify_pincode ⟨"alice", "123456", 4, 0, 5, 300, 7, []⟩ 1000 "999999").1
        = Except.ok false
    ∧ (WalletService.verify_pin ⟨7, [("u1", ⟨"u1", "bob", "654321", 0, 4, 0, 5, 300, []⟩)], []⟩
          1000 "u1" "111111").1 = Except.error WalletService.SErr.locked :=
  ⟨(C2_lockout_contract ⟨"alice", "123456", 4, 0, 5, 300, 7, []⟩ 1000 1100 "999999"
      (by decide) (by decide) (by decide)
      ⟨7, [("u1", ⟨"u1", "bob", "654321", 0, 4, 0, 5, 300, []⟩)], []⟩
      ⟨"u1", "bob", "654321", 0, 4, 0, 5, 300, []⟩ "u1" "111111"
      (by rfl) (by decide) (by decide) (by decide)).1.1,
   (C2_lockout_contract ⟨"alice", "123456", 4, 0, 5, 300, 7, []⟩ 1000 1100 "999999"
      (by decide) (by decide) (by decide)
      ⟨7, [("u1", ⟨"u1", "bob", "654321", 0, 4, 0, 5, 300, []⟩)], []⟩
      ⟨"u1", "bob", "654321", 0, 4, 0, 5, 300, []⟩ "u1" "111111"
      (by rfl) (by decide) (by decide) (by decide)).2.1⟩

/-! ## C3: the plaintext cache bypasses encryption-context binding -/

/-- C3 (failing input): generate a data key under context `use=wallet`. A
cold-cache decryption with the wrong context `use=other` correctly fails with
`DecryptionError`; but after one successful decryption with the correct
context has populated `self._key_cache`, the same wrong-context call returns
the plaintext key material, because the cache probe in `decrypt_data_key`
ignores the context. -/
theorem C3_cached_key_ignores_context :
    let m0 : KMS.Manager := ⟨5, [], []⟩
    let g := KMS.generate_data_key m0 100 "kid1" 42 (some [("use", "wallet")])
    let d1 := KMS.decrypt_data_key g.2 "kid1" (some [("use", "wallet")])
    let dWrongCold := KMS.decrypt_data_key g.2 "kid1" (some [("use", "other")])
    let dWrongWarm := KMS.decrypt_data_key d1.2 "kid1" (some [("use", "other")])
    d1.1 = Except.ok 42
    ∧ dWrongCold.1 = Except.error KMS.KErr.decryptionError
    ∧ dWrongWarm.1 = Except.ok 42 := by
  exact ⟨rfl, rfl, rfl⟩

/-! ## C4: expiry validation -/

/-- A predicate false on every member leaves the list unchanged by dropWhile. -/
theorem dropWhile_eq_self_of_all {p : Char → Bool} (l : List Char)
    (h : ∀ c ∈ l, p c = false) : l.dropWhile p = l := by
  cases l with
  | nil => rfl
  | cons a t => simp [List.dropWhile_cons, h a (by simp)]

/-- Stripping whitespace from a whitespace-free string is the identity. -/
theorem strip_eq_self (s : List Char) (h : ∀ c ∈ s, Py.isSpace c = false) :
    Py.strip s = s := by
  unfold Py.strip
  rw [dropWhile_eq_self_of_all s h,
      dropWhile_eq_self_of_all s.reverse (fun c hc => h c (List.mem_reverse.mp hc)),
      List.reverse_reverse]

/-- Python `int()` on a nonempty all-digit string returns its numeric value. -/
theorem pyInt_digits (s : List Char) (hne : s ≠ []) (h : ∀ c ∈ s, Py.isdigit c = true) :
    Py.pyInt s = some ((Py.digitsVal s : Int)) := by
  cases s with
  | nil => cases hne rfl
  | cons a t =>
      have hsp : ∀ c ∈ a :: t, Py.isSpace c = false :=
        fun c hc => digit_not_space c (h c hc)
      have hplus := (digit_ne_sign a (h a (by simp))).1
      have hminus := (digit_ne_sign a (h a (by simp))).2
      have hall : (a :: t).all Py.isdigit = true := List.all_eq_true.mpr h
      unfold Py.pyInt
      rw [strip_eq_self _ hsp]
      simp [hplus, hminus, hall]

/-- The value of a two-digit string is at most 99. -/
theorem digitsVal_two_le (c1 c2 : Char) (h1 : Py.isdigit c1 = true) (h2 : Py.isdigit c2 = true) :
    Py.digitsVal [c1, c2] ≤ 99 := by
  have b1 := digitVal_le_nine c1 h1
  have b2 := digitVal_le_nine c2 h2
  simp [Py.digitsVal, List.foldl]
  omega

/-- The spec side of C4, following the claim's words: the expiry is accepted
iff it has the form `MM/YY` or `MM/YYYY` (two-digit month, two- or four-digit
year, all digits) with month value 1..12 and the (year, month) pair not
strictly before the current (year, month); two-digit years read as `20YY`. -/
def specExpiryAccept (thisYear thisMonth : Int) (s : List Char) : Bool :=
  match Py.split '/' s with
  | [m, y] =>
      m.length = 2 ∧ m.all Py.isdigit ∧ (y.length = 2 ∨ y.length = 4) ∧ y.all Py.isdigit ∧
      (1 ≤ (Py.digitsVal m : Int) ∧ (Py.digitsVal m : Int) ≤ 12 ∧
        (let yy : Int := if y.length = 2 then 2000 + Py.digitsVal y else Py.digitsVal y
         thisYear < yy ∨ (yy = thisYear ∧ thisMonth ≤ (Py.digitsVal m : Int))))
  | _ => false

/-- C4 (counterexample): the claimed iff fails in both variants. With the
current date 2026-10, `celora_wallet._validate_expiry` accepts `12/99999`,
which is not of the form `MM/YY` or `MM/YYYY`; and the walletService variant
accepts the past date `01/20`, which the claim says is rejected. -/
theorem C4_counterexample :
    (CeloraWallet.validate_expiry 2026 10 (String.toList "12/99999") = true
      ∧ specExpiryAccept 2026 10 (String.toList "12/99999") = false)
    ∧ (WalletService.validate_expiry (String.toList "01/20") = true
      ∧ specExpiryAccept 2026 10 (String.toList "01/20") = false) := by
  exact ⟨⟨by decide, by decide⟩, ⟨by decide, by decide⟩⟩

/-- C4 (amended): on inputs of the exact form `MM/YY` the celora validator
accepts iff the month value is 1..12 and (2000+YY, MM) is not before the
current (year, month); on the form `MM/YYYY` the same holds with the year
taken literally except that a value below 100 is shifted by 2000. Strings
outside these forms can also be accepted (`12/99999`). The walletService
variant checks only the format, accepting the past date `01/20`; both
variants reject `13/25` (month out of range), and the celora variant rejects
the past date `01/20`. -/
theorem C4_expiry_validation (Y M : Int) (m1 m2 y1 y2 y3 y4 : Char)
    (hm1 : Py.isdigit m1 = true) (hm2 : Py.isdigit m2 = true)
    (hy1 : Py.isdigit y1 = true) (hy2 : Py.isdigit y2 = true)
    (hy3 : Py.isdigit y3 = true) (hy4 : Py.isdigit y4 = true) :
    (CeloraWallet.validate_expiry Y M [m1, m2, '/', y1, y2] = true ↔
      (1 ≤ (Py.digitsVal [m1, m2] : Int) ∧ (Py.digitsVal [m1, m2] : Int) ≤ 12
        ∧ ¬((2000 + Py.digitsVal [y1, y2] : Int) < Y)
        ∧ ¬((2000 + Py.digitsVal [y1, y2] : Int) = Y ∧ (Py.digitsVal [m1, m2] : Int) < M)))
    ∧ (CeloraWallet.validate_expiry Y M [m1, m2, '/', y1, y2, y3, y4] = true ↔
      (1 ≤ (Py.digitsVal [m1, m2] : Int) ∧ (Py.digitsVal [m1, m2] : Int) ≤ 12
        ∧ ¬((if (Py.digitsVal [y1, y2, y3, y4] : Int) < 100
              then (Py.digitsVal [y1, y2, y3, y4] : Int) + 2000
              else (Py.digitsVal [y1, y2, y3, y4] : Int)) < Y)
        ∧ ¬((if (Py.digitsVal [y1, y2, y3, y4] : Int) < 100
              then (Py.digitsVal [y1, y2, y3, y4] : Int) + 2000
              else (Py.digitsVal [y1, y2, y3, y4] : Int)) = Y
            ∧ (Py.digitsVal [m1, m2] : Int) < M)))
    ∧ CeloraWallet.validate_expiry 2026 10 (String.toList "12/99999") = true
    ∧ (∀ Y2 M2 : Int, CeloraWallet.validate_expiry Y2 M2 (String.toList "13/25") = false)
    ∧ CeloraWallet.validate_expiry 2026 10 (String.toList "01/20") = false
    ∧ WalletService.validate_expiry (String.toList "01/20") = true
    ∧ WalletService.validate_expiry (String.toList "13/25") = false := by
  refine ⟨?_, ?_, by decide, fun _ _ => rfl, by decide, by decide, by decide⟩
  · have hsplit : Py.split '/' [m1, m2, '/', y1, y2] = [[m1, m2], [y1, y2]] := by
      simp [Py.split, digit_ne_slash _ hm1, digit_ne_slash _ hm2,
            digit_ne_slash _ hy1, digit_ne_slash _ hy2]
    have hym : Py.pyInt [m1, m2] = some ((Py.digitsVal [m1, m2] : Int)) :=
      pyInt_digits _ (by simp) (by intro c hc; simp at hc; rcases hc with rfl | rfl <;> assumption)
    have hyy : Py.pyInt [y1, y2] = some ((Py.digitsVal [y1, y2] : Int)) :=
      pyInt_digits _ (by simp) (by intro c hc; simp at hc; rcases hc with rfl | rfl <;> assumption)
    have hlt : (Py.digitsVal [y1, y2] : Int) < 100 := by
      have := digitsVal_two_le y1 y2 hy1 hy2
      omega
    unfold CeloraWallet.validate_expiry
    rw [hsplit]
    simp only [hym, hyy]
    rw [if_pos hlt]
    split_ifs with h1 h2 h3 <;> simp_all <;> omega
  · have hsplit : Py.split '/' [m1, m2, '/', y1, y2, y3, y4] = [[m1, m2], [y1, y2, y3, y4]] := by
      simp [Py.split, digit_ne_slash _ hm1, digit_ne_slash _ hm2,
            digit_ne_slash _ hy1, digit_ne_slash _ hy2, digit_ne_slash _ hy3, digit_ne_slash _ hy4]
    have hym : Py.pyInt [m1, m2] = some ((Py.digitsVal [m1, m2] : Int)) :=
      pyInt_digits _ (by simp) (by intro c hc; simp at hc; rcases hc with rfl | rfl <;> assumption)
    have hyy : Py.pyInt [y1, y2, y3, y4] = some ((Py.digitsVal [y1, y2, y3, y4] : Int)) :=
      pyInt_digits _ (by simp)
        (by intro c hc; simp at hc; rcases hc with rfl | rfl | rfl | rfl <;> assumption)
    unfold CeloraWallet.validate_expiry
    rw [hsplit]
    simp only [hym, hyy]
    split_ifs <;> simp_all

/-- Witness for C4: the amended characterization applied to the concrete
digits of `12/27` with current date 2026-10. -/
theorem C4_witness :
    CeloraWallet.validate_expiry 2026 10 ['1', '2', '/', '2', '7'] = true :=
  ((C4_expiry_validation 2026 10 '1' '2' '2' '7' '9' '9'
      (by decide) (by decide) (by decide) (by decide) (by decide) (by decide)).1).mpr
    (by decide)

/-! ## C6: masking -/

/-- `_mask_card_number` in one formula: the digits of the input with all but
the last 4 replaced by `'*'` (with at most 4 digits nothing is replaced). -/
theorem mask_card_number_eq (n : List Char) :
    CeloraWallet.mask_card_number n =
      List.replicate ((n.filter Py.isdigit).length - 4) '*'
        ++ (n.filter Py.isdigit).drop ((n.filter Py.isdigit).length - 4) := by
  unfold CeloraWallet.mask_card_number
  by_cases h : (n.filter Py.isdigit).length ≤ 4
  · rw [if_pos h]
    have h0 : (n.filter Py.isdigit).length - 4 = 0 := by omega
    simp [h0]
  · rw [if_neg h]

/-- Every view produced by the `list_cards` loop comes from masking one of the
stored cards. -/
theorem list_cards_go_mem (k : Nat) (cs : List CeloraWallet.VirtualCard) :
    ∀ (vs : List CeloraWallet.MaskedCard),
      CeloraWallet.list_cards.go k cs = Except.ok vs →
      ∀ v ∈ vs, ∃ c ∈ cs, CeloraWallet.masked k c = Except.ok v := by
  induction cs with
  | nil =>
      intro vs h v hv
      unfold CeloraWallet.list_cards.go at h
      cases h
      simp at hv
  | cons c rest ih =>
      intro vs h v hv
      unfold CeloraWallet.list_cards.go at h
      cases hm : CeloraWallet.masked k c with
      | error e => rw [hm] at h; cases h
      | ok v0 =>
          rw [hm] at h
          cases hg : CeloraWallet.list_cards.go k rest with
          | error e => rw [hg] at h; cases h
          | ok vs0 =>
              rw [hg] at h
              cases h
              rcases List.mem_cons.mp hv with rfl | hv0
              · exact ⟨c, by simp, hm⟩
              · obtain ⟨c1, hc1, hmk⟩ := ih vs0 hg v hv0
                exact ⟨c1, by simp [hc1], hmk⟩

/-- C6 (counterexample): the Luhn-valid one-digit card number `"0"` is
accepted by `add_card`, and `list_cards` then returns a masked view whose
`card_number_masked` equals the stored card's complete card number — a masked
view that does reveal the full card number, against the claim's final
clause. (Only numbers of at most 4 digits are affected; `cvv_masked` is still
`"***"`.) -/
theorem C6_counterexample :
    let w0 : CeloraWallet.Wallet := ⟨"alice", "123456", 0, 0, 5, 300, 7, []⟩
    let r := CeloraWallet.add_card w0 0 2026 10 "cid1" ['0']
      (String.toList "12/99") none (some "123456")
    r.1 = Except.ok "cid1"
    ∧ CeloraWallet.list_cards r.2 =
        Except.ok [⟨"cid1", ['0'], String.toList "12/99", ['*', '*', '*']⟩]
    ∧ (∃ v ∈ [(⟨"cid1", ['0'], String.toList "12/99", ['*', '*', '*']⟩ : CeloraWallet.MaskedCard)],
        ∃ c ∈ r.2.cards, ∃ p,
          CeloraWallet.fernetDecrypt r.2.fernetKey c.encrypted = some p
          ∧ v.card_number_masked = p.card_number) := by
  refine ⟨rfl, rfl, ⟨⟨"cid1", ['0'], String.toList "12/99", ['*', '*', '*']⟩, by simp, ?_⟩⟩
  exact ⟨⟨"cid1", ⟨7, ⟨['0'], String.toList "12/99"⟩⟩⟩, by decide, ⟨['0'], String.toList "12/99"⟩, rfl, rfl⟩

/-- C6 (amended): every masked view returned by `list_cards` has
`card_number_masked` equal to the stored number's digits with all but the
last 4 replaced by `'*'` (so at most the last 4 digits are ever revealed,
though a number with at most 4 digits appears in full), carries the stored
expiry, and has `cvv_masked = "***"` regardless of any CVV (the celora
payload stores no CVV at all). -/
theorem C6_masked_views (w : CeloraWallet.Wallet) (views : List CeloraWallet.MaskedCard)
    (h : CeloraWallet.list_cards w = Except.ok views) :
    ∀ v ∈ views, ∃ c ∈ w.cards, ∃ p,
      CeloraWallet.fernetDecrypt w.fernetKey c.encrypted = some p
      ∧ v.card_number_masked =
          List.replicate ((p.card_number.filter Py.isdigit).length - 4) '*'
            ++ (p.card_number.filter Py.isdigit).drop
                ((p.card_number.filter Py.isdigit).length - 4)
      ∧ v.cvv_masked = ['*', '*', '*']
      ∧ v.expiry = p.expiry ∧ v.id = c.id := by
  intro v hv
  obtain ⟨c, hc, hmk⟩ := list_cards_go_mem w.fernetKey w.cards views h v hv
  unfold CeloraWallet.masked at hmk
  cases hd : CeloraWallet.fernetDecrypt w.fernetKey c.encrypted with
  | none => rw [hd] at hmk; cases hmk
  | some p =>
      rw [hd] at hmk
      cases hmk
      exact ⟨c, hc, p, hd, mask_card_number_eq p.card_number, rfl, rfl, rfl⟩

/-- Witness for C6: the amended statement applied to a concrete wallet
holding the card `4532015112830366`, whose masked view is
`************0366`. -/
theorem C6_witness :
    let w1 : CeloraWallet.Wallet :=
      ⟨"alice", "123456", 0, 0, 5, 300, 7,
       [⟨"cid1", ⟨7, ⟨String.toList "4532015112830366", String.toList "12/27"⟩⟩⟩]⟩
    let v1 : CeloraWallet.MaskedCard :=
      ⟨"cid1", String.toList "************0366", String.toList "12/27", ['*', '*', '*']⟩
    ∃ c ∈ w1.cards, ∃ p,
      CeloraWallet.fernetDecrypt w1.fernetKey c.encrypted = some p
      ∧ v1.card_number_masked =
          List.replicate ((p.card_number.filter Py.isdigit).length - 4) '*'
            ++ (p.card_number.filter Py.isdigit).drop
                ((p.card_number.filter Py.isdigit).length - 4)
      ∧ v1.cvv_masked = ['*', '*', '*']
      ∧ v1.expiry = p.expiry ∧ v1.id = c.id :=
  C6_masked_views
    ⟨"alice", "123456", 0, 0, 5, 300, 7,
     [⟨"cid1", ⟨7, ⟨String.toList "4532015112830366", String.toList "12/27"⟩⟩⟩]⟩
    [⟨"cid1", String.toList "************0366", String.toList "12/27", ['*', '*', '*']⟩]
    rfl
    ⟨"cid1", String.toList "************0366", String.toList "12/27", ['*', '*', '*']⟩
    (by simp)

/-! ## C7: add_card / get_card round trip -/

/-- Symbolic Fernet round trip: decrypting with the encrypting key recovers
the payload. -/
theorem fernet_round_trip (k : Nat) (p : CeloraWallet.CardPayload) :
    CeloraWallet.fernetDecrypt k (CeloraWallet.fernetEncrypt k p) = some p := by
  simp [CeloraWallet.fernetDecrypt, CeloraWallet.fernetEncrypt]

/-- `get_card` with the correct PIN on a wallet whose card list ends with a
freshly appended card returns that card's payload. -/
theorem get_card_appended (w : CeloraWallet.Wallet) (now2 : Int) (freshId : String)
    (p : CeloraWallet.CardPayload)
    (hfresh : ∀ c ∈ w.cards, ¬ c.id = freshId)
    (hnl2 : ¬ now2 < w.lockout_until) :
    (CeloraWallet.get_card { w with cards := w.cards ++ [⟨freshId, CeloraWallet.fernetEncrypt w.fernetKey p⟩] } now2 freshId w.pincode).1 = Except.ok p := by
  simp only [CeloraWallet.get_card, CeloraWallet.verify_pincode]
  rw [if_neg hnl2]
  simp only [if_true]
  have hfind : (w.cards ++ [(⟨freshId, CeloraWallet.fernetEncrypt w.fernetKey p⟩ : CeloraWallet.VirtualCard)]).find?
      (fun c => c.id == freshId) = some ⟨freshId, CeloraWallet.fernetEncrypt w.fernetKey p⟩ := by
    rw [List.find?_append]
    have h1 : w.cards.find? (fun c => c.id == freshId) = none :=
      List.find?_eq_none.mpr (fun c hc => by simpa using hfresh c hc)
    rw [h1]
    simp
  simp only [hfind]
  rw [fernet_round_trip]

/-- C7: a card number and expiry accepted by `add_card` (fresh random id, PIN
absent or correct, valid Luhn/CVV/expiry) are returned verbatim by a
subsequent `get_card` with the returned card id and the correct PIN. -/
theorem C7_round_trip (w : CeloraWallet.Wallet) (now1 now2 Y M : Int)
    (freshId : String) (cn exp : List Char) (cvv : Option (List Char)) (pinArg : Option String)
    (hfresh : ∀ c ∈ w.cards, ¬ c.id = freshId)
    (hpin : pinArg = none ∨ pinArg = some w.pincode)
    (hnl1 : ¬ now1 < w.lockout_until)
    (hluhn : CeloraWallet.luhn_valid cn = true)
    (hcvv : ∀ c, cvv = some c → CeloraWallet.cvvOk c = true)
    (hexp : CeloraWallet.validate_expiry Y M exp = true)
    (hnl2 : ¬ now2 < w.lockout_until) :
    (CeloraWallet.add_card w now1 Y M freshId cn exp cvv pinArg).1 = Except.ok freshId
    ∧ (CeloraWallet.get_card (CeloraWallet.add_card w now1 Y M freshId cn exp cvv pinArg).2
         now2 freshId w.pincode).1 = Except.ok ⟨cn, exp⟩ := by
  have hcvvb : cvv.any (fun c => ¬ CeloraWallet.cvvOk c) = false := by
    cases cvv with
    | none => rfl
    | some c => simp [Option.any, hcvv c rfl]
  rcases hpin with rfl | rfl
  · have hadd : CeloraWallet.add_card w now1 Y M freshId cn exp cvv none =
        (Except.ok freshId, { w with cards := w.cards ++ [⟨freshId, CeloraWallet.fernetEncrypt w.fernetKey ⟨cn, exp⟩⟩] }) := by
      simp only [CeloraWallet.add_card, hluhn, hcvvb, hexp]
      simp
    rw [hadd]
    exact ⟨rfl, get_card_appended w now2 freshId ⟨cn, exp⟩ hfresh hnl2⟩
  · have hadd : CeloraWallet.add_card w now1 Y M freshId cn exp cvv (some w.pincode) =
        (Except.ok freshId, { w with failed_attempts := 0, cards := w.cards ++ [⟨freshId, CeloraWallet.fernetEncrypt w.fernetKey ⟨cn, exp⟩⟩] }) := by
      simp only [CeloraWallet.add_card, CeloraWallet.verify_pincode, if_neg hnl1]
      simp only [if_true, hluhn, hcvvb, hexp]
      simp
    rw [hadd]
    exact ⟨rfl, get_card_appended { w with failed_attempts := 0 } now2 freshId ⟨cn, exp⟩ hfresh hnl2⟩

/-- Witness for C7: the round trip applied to a concrete empty wallet, card
`4532015112830366` with expiry `12/27` and CVV `123`, PIN supplied and
correct. -/
theorem C7_witness :
    (CeloraWallet.add_card ⟨"alice", "123456", 0, 0, 5, 300, 7, []⟩ 0 2026 10 "cid1"
        (String.toList "4532015112830366") (String.toList "12/27")
        (some (String.toList "123")) (some "123456")).1 = Except.ok "cid1"
    ∧ (CeloraWallet.get_card (CeloraWallet.add_card ⟨"alice", "123456", 0, 0, 5, 300, 7, []⟩ 0 2026 10 "cid1"
        (String.toList "4532015112830366") (String.toList "12/27")
        (some (String.toList "123")) (some "123456")).2 50 "cid1" "123456").1
      = Except.ok ⟨String.toList "4532015112830366", String.toList "12/27"⟩ :=
  C7_round_trip ⟨"alice", "123456", 0, 0, 5, 300, 7, []⟩ 0 50 2026 10 "cid1"
    (String.toList "4532015112830366") (String.toList "12/27")
    (some (String.toList "123")) (some "123456")
    (by simp) (Or.inr rfl) (by decide) (by decide)
    (by intro c hc; cases hc; decide) (by decide) (by decide)

/-! ## C8: key rotation -/

/-- Looking up a present key after a key-preserving value update returns the
updated value. -/
theorem lookup_map_update {α : Type} (upd : α → α) (l : List (String × α)) (k : String) :
    ∀ v, KMS.lookup l k = some v →
      KMS.lookup (l.map (fun e => if e.1 == k then (e.1, upd e.2) else e)) k = some (upd v) := by
  induction l with
  | nil => intro v h; simp [KMS.lookup] at h
  | cons e rest ih =>
      intro v h
      rcases e with ⟨a, b⟩
      by_cases he : a = k
      · have hbe : (a == k) = true := by simpa using he
        unfold KMS.lookup at h
        rw [List.find?_cons_of_pos _ (by simpa using hbe)] at h
        have hb : b = v := by simpa using h
        subst hb
        unfold KMS.lookup
        simp only [List.map_cons, hbe, if_true]
        rw [List.find?_cons_of_pos _ (by simpa using hbe)]
        rfl
      · have hbe : (a == k) = false := by simpa using he
        unfold KMS.lookup at h
        rw [List.find?_cons_of_neg _ (by simp [hbe])] at h
        unfold KMS.lookup
        simp only [List.map_cons, hbe, Bool.false_eq_true, if_false]
        rw [List.find?_cons_of_neg _ (by simp [hbe])]
        exact ih v h

/-- C8: rotating an existing key (with fresh randomness and a later clock)
returns the fresh kid and key material with `created_at = now`, strictly
after the old key's `created_at`; the old record's metadata is marked
`rotated_at` while its encrypted key is kept, and `decrypt_data_key` for the
old kid with its original context still returns the old key material. -/
theorem C8_rotate (m : KMS.Manager) (now : Int) (freshKid : String) (freshKey : Nat)
    (old_kid : String) (sk : KMS.StoredKey) (ctx : Option KMS.Ctx)
    (hold : KMS.lookup m.store old_kid = some sk)
    (hkid : ¬ freshKid = old_kid)
    (hkey : ¬ freshKey = sk.encrypted_key.payload)
    (htime : sk.metadata.created_at < now)
    (hcache : KMS.lookup m.key_cache old_kid = none)
    (hmk : sk.encrypted_key.masterKey = m.masterKey)
    (hctx : sk.encrypted_key.ctx = KMS.canonCtx ctx) :
    (KMS.rotate_key m now freshKid freshKey old_kid).1.2.1 = freshKid
    ∧ ¬ (KMS.rotate_key m now freshKid freshKey old_kid).1.2.1 = old_kid
    ∧ (KMS.rotate_key m now freshKid freshKey old_kid).1.1 = freshKey
    ∧ ¬ (KMS.rotate_key m now freshKid freshKey old_kid).1.1 = sk.encrypted_key.payload
    ∧ (KMS.rotate_key m now freshKid freshKey old_kid).1.2.2.created_at = now
    ∧ sk.metadata.created_at < (KMS.rotate_key m now freshKid freshKey old_kid).1.2.2.created_at
    ∧ (∃ sk1, KMS.lookup (KMS.rotate_key m now freshKid freshKey old_kid).2.store old_kid = some sk1
        ∧ sk1.metadata.rotated_at = some now
        ∧ sk1.encrypted_key = sk.encrypted_key)
    ∧ (KMS.decrypt_data_key (KMS.rotate_key m now freshKid freshKey old_kid).2 old_kid ctx).1
        = Except.ok sk.encrypted_key.payload := by
  have hbfk : (freshKid == old_kid) = false := by simpa using hkid
  have hlk : KMS.lookup (KMS.rotate_key m now freshKid freshKey old_kid).2.store old_kid
      = some { sk with metadata := { sk.metadata with rotated_at := some now } } := by
    show KMS.lookup
      (((freshKid, (⟨KMS.encrypt_with_master_key freshKey m.masterKey none, ⟨freshKid, 1, "AES-256-GCM", now, none⟩, KMS.canonCtx none⟩ : KMS.StoredKey)) :: m.store).map
        (fun e => if e.1 == old_kid then (e.1, { e.2 with metadata := { e.2.metadata with rotated_at := some now } }) else e)) old_kid = _
    simp only [List.map_cons, hbfk, Bool.false_eq_true, if_false]
    unfold KMS.lookup
    rw [List.find?_cons_of_neg _ (by simp [hbfk])]
    exact lookup_map_update
      (fun sk2 => { sk2 with metadata := { sk2.metadata with rotated_at := some now } })
      m.store old_kid sk hold
  have hcache2 : (KMS.rotate_key m now freshKid freshKey old_kid).2.key_cache = m.key_cache := rfl
  refine ⟨rfl, hkid, rfl, hkey, rfl, htime, ⟨_, hlk, rfl, rfl⟩, ?_⟩
  unfold KMS.decrypt_data_key
  rw [hcache2, hcache, hlk]
  have hdec : KMS.decrypt_with_master_key sk.encrypted_key
      (KMS.rotate_key m now freshKid freshKey old_kid).2.masterKey ctx
      = some sk.encrypted_key.payload := by
    unfold KMS.decrypt_with_master_key
    rw [if_pos ⟨by rw [hmk]; rfl, hctx⟩]
  simp [hdec]

/-- Witness for C8: rotating the concrete key `kidA` (created at 10, key
material 42) at time 20 with fresh kid `kidB` and fresh key 43; the old key
is still decryptable afterwards. -/
theorem C8_witness :
    (KMS.decrypt_data_key
        (KMS.rotate_key ⟨5, [("kidA", ⟨⟨5, [], 42⟩, ⟨"kidA", 1, "AES-256-GCM", 10, none⟩, []⟩)], []⟩
          20 "kidB" 43 "kidA").2 "kidA" none).1 = Except.ok 42 :=
  (C8_rotate ⟨5, [("kidA", ⟨⟨5, [], 42⟩, ⟨"kidA", 1, "AES-256-GCM", 10, none⟩, []⟩)], []⟩
      20 "kidB" 43 "kidA" ⟨⟨5, [], 42⟩, ⟨"kidA", 1, "AES-256-GCM", 10, none⟩, []⟩ none
      rfl (by decide) (by decide) (by decide) rfl rfl rfl).2.2.2.2.2.2.2

/-! ## C9: cross-owner isolation -/

/-- `verify_pin` never touches the card store, whatever its outcome. -/
theorem verify_pin_cards (s : WalletService.Service) (now : Int) (u p : String) :
    ((WalletService.verify_pin s now u p).2).cards = s.cards := by
  unfold WalletService.verify_pin
  split
  · rfl
  · dsimp only
    split_ifs <;> rfl

/-- C9: for a card stored under owner A and any distinct caller B,
`get_card_details` never returns the card payload and `delete_card` leaves
the card store unchanged, whatever PIN B supplies; when B's own PIN verifies
(wallet present, not locked, PIN correct) both calls fail with the
access-denied error, the ownership check having run before any decryption or
removal. -/
theorem C9_cross_owner_isolation (s : WalletService.Service) (now : Int)
    (uidB pin cid : String) (card : WalletService.EncryptedCard)
    (hcard : WalletService.lookup s.cards cid = some card)
    (hown : ¬ card.owner_id = uidB) :
    (∀ p, ¬ (WalletService.get_card_details s now uidB cid pin).1 = Except.ok p)
    ∧ (WalletService.delete_card s now uidB cid pin).2.cards = s.cards
    ∧ (∀ sw, WalletService.lookup s.wallets uidB = some sw → ¬ now < sw.locked_until →
         pin = sw.pin →
         (WalletService.get_card_details s now uidB cid pin).1 = Except.error WalletService.SErr.accessDenied
         ∧ (WalletService.delete_card s now uidB cid pin).1 = Except.error WalletService.SErr.accessDenied) := by
  rcases hvp : WalletService.verify_pin s now uidB pin with ⟨r, s1⟩
  have hcards1 : s1.cards = s.cards := by
    have h := verify_pin_cards s now uidB pin
    rw [hvp] at h
    exact h
  have hcard1 : WalletService.lookup s1.cards cid = some card := by rw [hcards1]; exact hcard
  refine ⟨?_, ?_, ?_⟩
  · intro p
    simp only [WalletService.get_card_details, hvp]
    cases r with
    | error e => intro h; exact Except.noConfusion h
    | ok b =>
        cases b with
        | false => intro h; exact Except.noConfusion h
        | true =>
            simp only [hcard1]
            rw [if_pos hown]
            intro h
            exact Except.noConfusion h
  · simp only [WalletService.delete_card, hvp]
    cases r with
    | error e => exact hcards1
    | ok b =>
        cases b with
        | false => exact hcards1
        | true =>
            simp only [hcard1]
            rw [if_pos hown]
            exact hcards1
  · intro sw hsw hnl hp
    have hvp2 : WalletService.verify_pin s now uidB pin =
        (Except.ok true, { s with wallets := WalletService.updateAt s.wallets uidB { sw with failed_attempts := 0 } }) := by
      simp only [WalletService.verify_pin, hsw, if_neg hnl, if_pos hp]
    rw [hvp] at hvp2
    cases hvp2
    constructor
    · simp only [WalletService.get_card_details, hvp, hcard1]
      rw [if_pos hown]
    · simp only [WalletService.delete_card, hvp, hcard1]
      rw [if_pos hown]

/-- Witness for C9: caller `uB` (with a valid wallet and correct PIN) is
denied `get_card_details` and `delete_card` on `uA`'s concrete card `c1`. -/
theorem C9_witness :
    (WalletService.get_card_details
        ⟨7, [("uB", ⟨"uB", "bob", "222222", 0, 0, 0, 5, 300, []⟩)],
         [("c1", ⟨"c1", "uA", ⟨7, ⟨String.toList "4532015112830366", String.toList "12/27", String.toList "123", []⟩⟩, 0, "active"⟩)]⟩
        10 "uB" "c1" "222222").1 = Except.error WalletService.SErr.accessDenied
    ∧ (WalletService.delete_card
        ⟨7, [("uB", ⟨"uB", "bob", "222222", 0, 0, 0, 5, 300, []⟩)],
         [("c1", ⟨"c1", "uA", ⟨7, ⟨String.toList "4532015112830366", String.toList "12/27", String.toList "123", []⟩⟩, 0, "active"⟩)]⟩
        10 "uB" "c1" "222222").1 = Except.error WalletService.SErr.accessDenied :=
  (C9_cross_owner_isolation
      ⟨7, [("uB", ⟨"uB", "bob", "222222", 0, 0, 0, 5, 300, []⟩)],
       [("c1", ⟨"c1", "uA", ⟨7, ⟨String.toList "4532015112830366", String.toList "12/27", String.toList "123", []⟩⟩, 0, "active"⟩)]⟩
      10 "uB" "222222" "c1"
      ⟨"c1", "uA", ⟨7, ⟨String.toList "4532015112830366", String.toList "12/27", String.toList "123", []⟩⟩, 0, "active"⟩
      rfl (by decide)).2.2
    ⟨"uB", "bob", "222222", 0, 0, 0, 5, 300, []⟩ rfl (by decide) rfl
